import Mathlib

/-!
# Verification of the IncExpectationExample notebook

This file gives a shallow embedding, over exact rationals, of the
orchestration and aggregation logic of `runRoszypalSchlaffmanExperiment`
and of the `PersistentShockConsumerTypeX.getControls` override from
`notebooks/IncExpectationExample.ipynb`, together with theorems settling
the frozen claims about that code.

The external HARK collaborators (the solver/simulator engine, the uniform
distribution approximation `Uniform(bot, top).approx(N).X`, and the
statistics helpers `getLorenzShares` / `calcSubpopAvg`) are modelled from
the specification's stated contracts; the notebook's own lines are
transliterated directly.
-/

namespace IncExp

/-- Embeds `np.mean(xs)` on exact values: sum divided by length
(Lean's rational division returns 0 for the empty list; the separate
`NpVal` embedding below captures the NaN behaviour of the float code). -/
def mean (xs : List ℚ) : ℚ := xs.sum / xs.length

/-- The ceiling of a rational, written out computably as `-⌊-q⌋` with the
floor computed by integer division (kernel-reducible; `ceilQ_eq` below
identifies it with the mathematical ceiling `⌈q⌉`). -/
def ceilQ (q : ℚ) : ℤ := -((-q).num / ((-q).den : ℤ))

/-- Modelled from the spec: the external statistics helper
`getLorenzShares(data, percentiles)` at a single percentile `p` — the
cumulative share of total wealth held by the bottom `⌈p·N⌉` agents when
agents are sorted ascending by asset level, divided by the total. -/
def lorenzShare (data : List ℚ) (p : ℚ) : ℚ :=
  (((data.insertionSort (· ≤ ·)).take (ceilQ (p * (data.length : ℚ))).toNat).sum) / data.sum

/-- Modelled from the spec: `getLorenzShares(data, percentiles)` — the
ordered sequence of cumulative Lorenz shares at the given percentiles. -/
def getLorenzShares (data : List ℚ) (percentiles : List ℚ) : List ℚ :=
  percentiles.map (lorenzShare data)

/-- Embeds `wealth_percentile = np.linspace(0.001, 0.999, 201)`:
the 201 evenly spaced interior percentile points. -/
def wealth_percentile : List ℚ :=
  (List.range 201).map (fun (i : ℕ) => 1/1000 + (i : ℚ) * ((999/1000 - 1/1000) / 200))

/-- Embeds `Lorenz_init = np.concatenate([[0], getLorenzShares(aLvl_all,
percentiles=wealth_percentile), [1]])`: the share sequence with the
boundary points prepended/appended. -/
def Lorenz_init (aLvl_all : List ℚ) : List ℚ :=
  [0] ++ getLorenzShares aLvl_all wealth_percentile ++ [1]

/-- Embeds `wealth_percentile = np.concatenate([[0], wealth_percentile, [1]])`. -/
def wealth_percentile_bounded : List ℚ :=
  [0] ++ wealth_percentile ++ [1]

/-- Embeds `Lorenz = np.stack((wealth_percentile, Lorenz_init))`:
the pair of the two parallel 1D arrays. -/
def Lorenz (aLvl_all : List ℚ) : List ℚ × List ℚ :=
  (wealth_percentile_bounded, Lorenz_init aLvl_all)

/-- Embeds `Gini = 1.0 - 2.0*np.mean(Lorenz_init[1])`.  `Lorenz_init[1]`
is a single scalar — the element at index 1 of the bounded share array,
i.e. the Lorenz share at the first interior percentile 0.001 — and
`np.mean` of a scalar is that scalar. -/
def Gini (aLvl_all : List ℚ) : ℚ :=
  1 - 2 * ((Lorenz_init aLvl_all).getD 1 0)

/-- The Gini formula as the specification words it (for comparison with
`Gini`): 1 minus twice the arithmetic mean of the full Lorenz-share
sequence at the 201 interior percentile points, boundary points excluded. -/
def GiniSpecMean (aLvl_all : List ℚ) : ℚ :=
  1 - 2 * mean (getLorenzShares aLvl_all wealth_percentile)

/-- Embeds `AggWealthRatio = np.mean(aLvl_all) / np.mean(pLvl_all)`
on exact values (the wealth-to-income quotient). -/
def wealthIncomeRat (aLvl_all pLvl_all : List ℚ) : ℚ :=
  mean aLvl_all / mean pLvl_all

/-- Total order on (reference, data) pairs used to model the external
`calcSubpopAvg` helper deterministically: sort by the reference value,
breaking ties by the data value. -/
def pairLE (a b : ℚ × ℚ) : Prop :=
  a.1 < b.1 ∨ (a.1 = b.1 ∧ a.2 ≤ b.2)

instance : DecidableRel pairLE := fun a b =>
  inferInstanceAs (Decidable (a.1 < b.1 ∨ (a.1 = b.1 ∧ a.2 ≤ b.2)))

instance : IsTrans (ℚ × ℚ) pairLE where
  trans a b c hab hbc := by
    rcases hab with h1 | ⟨h1, h2⟩ <;> rcases hbc with h3 | ⟨h3, h4⟩
    · exact Or.inl (h1.trans h3)
    · exact Or.inl (h3 ▸ h1)
    · exact Or.inl (h1 ▸ h3)
    · exact Or.inr ⟨h1.trans h3, h2.trans h4⟩

instance : IsAntisymm (ℚ × ℚ) pairLE where
  antisymm a b hab hba := by
    rcases hab with h1 | ⟨h1, h2⟩ <;> rcases hba with h3 | ⟨h3, h4⟩
    · exact absurd h3 (lt_asymm h1)
    · exact absurd h1 (h3 ▸ lt_irrefl _)
    · exact absurd h3 (h1 ▸ lt_irrefl _)
    · exact Prod.ext h1 (le_antisymm h2 h4)

instance : IsTotal (ℚ × ℚ) pairLE where
  total a b := by
    rcases lt_trichotomy a.1 b.1 with h | h | h
    · exact Or.inl (Or.inl h)
    · rcases le_total a.2 b.2 with h2 | h2
      · exact Or.inl (Or.inr ⟨h, h2⟩)
      · exact Or.inr (Or.inr ⟨h.symm, h2⟩)
    · exact Or.inr (Or.inl h)

/-- Modelled from the spec: the external helper
`calcSubpopAvg(data, reference, cutoffs)` — partition agents into groups
by reference-value percentile cutoffs and return each group's arithmetic
mean of the data values.  The partition takes, for cutoff `(lo, hi)`, the
sorted pairs with (0-based) positions in `[⌈lo·N⌉, ⌈hi·N⌉)`; ties in the
reference are broken deterministically by the data value. -/
def calcSubpopAvg (data reference : List ℚ) (cutoffs : List (ℚ × ℚ)) : List ℚ :=
  let pairs := (reference.zip data).insertionSort pairLE
  let N : ℚ := reference.length
  cutoffs.map (fun c =>
    let lo := (ceilQ (c.1 * N)).toNat
    let hi := (ceilQ (c.2 * N)).toNat
    let grp := (pairs.drop lo).take (hi - lo)
    (grp.map Prod.snd).sum / grp.length)

/-- The quintile cutoffs `[(0.0,0.2), (0.2,0.4), (0.4,0.6), (0.6,0.8), (0.8,1.0)]`. -/
def quintileCutoffs : List (ℚ × ℚ) :=
  [(0, 1/5), (1/5, 2/5), (2/5, 3/5), (3/5, 4/5), (4/5, 1)]

/-- Embeds `Avg_MPC = calcSubpopAvg(MPC_all, pLvl_all, cutoffs=...)`. -/
def Avg_MPC (MPC_all pLvl_all : List ℚ) : List ℚ :=
  calcSubpopAvg MPC_all pLvl_all quintileCutoffs

/-- IEEE-style value as numpy produces it: a finite number, NaN, or a
signed infinity.  Used to embed the float semantics of the aggregation
step, which has no error path of its own. -/
inductive NpVal where
  | fin (q : ℚ)
  | nan
  | posInf
  | negInf
deriving DecidableEq

/-- Whether an `NpVal` is a finite number. -/
def NpVal.isFin : NpVal → Bool
  | .fin _ => true
  | _ => false

/-- `np.mean` with numpy semantics: the mean of an empty array is NaN
(numpy emits a RuntimeWarning, not an exception). -/
def npMean (xs : List ℚ) : NpVal :=
  if xs = [] then .nan else .fin (mean xs)

/-- Division with numpy float semantics: x/0 is ±inf (NaN for 0/0),
and NaN propagates; no exception is ever raised. -/
def npDiv (x y : NpVal) : NpVal :=
  match x, y with
  | .nan, _ => .nan
  | _, .nan => .nan
  | .fin a, .fin b =>
      if b = 0 then (if a = 0 then .nan else if 0 < a then .posInf else .negInf)
      else .fin (a / b)
  | .posInf, .fin b => if 0 ≤ b then .posInf else .negInf
  | .negInf, .fin b => if 0 ≤ b then .negInf else .posInf
  | .fin _, .posInf => .fin 0
  | .fin _, .negInf => .fin 0
  | .posInf, .posInf => .nan
  | .posInf, .negInf => .nan
  | .negInf, .posInf => .nan
  | .negInf, .negInf => .nan

/-- Embeds `AggWealthRatio = np.mean(aLvl_all) / np.mean(pLvl_all)` with
numpy float semantics: the line is executed unconditionally, with no
guard on the denominator or on the population being non-empty. -/
def wealthIncomeRatNp (aLvl_all pLvl_all : List ℚ) : NpVal :=
  npDiv (npMean aLvl_all) (npMean pLvl_all)

/-- Modelled from the spec: the external distribution approximation
`Uniform(bot=..., top=...).approx(N=...).X` — a deterministic,
equiprobable approximation placing the N nodes at the midpoints of the
N equal subintervals of `[bot, top]` (not random sampling). -/
def uniformApproxX (bot top : ℚ) (N : ℕ) : List ℚ :=
  (List.range N).map (fun (i : ℕ) => bot + (top - bot) * (2 * (i : ℚ) + 1) / (2 * (N : ℚ)))

/-- Embeds `DiscFac_list = Uniform(bot=DiscFac_center-DiscFac_spread,
top=DiscFac_center+DiscFac_spread).approx(N=7).X`. -/
def DiscFac_list (DiscFac_center DiscFac_spread : ℚ) : List ℚ :=
  uniformApproxX (DiscFac_center - DiscFac_spread) (DiscFac_center + DiscFac_spread) 7

/-- One operation performed on an agent instance by the orchestration
loop of `runRoszypalSchlaffmanExperiment`. -/
inductive AgentOp where
  | construct (discFac prstIncCorr : ℚ)
  | setPrstIncCorr (c : ℚ)
  | updatepLvlNextFunc
  | solve
  | setTsim (n : ℕ)
  | initializeSim
  | simulate
deriving DecidableEq

/-- Transliteration of the body of the ensemble loop in
`runRoszypalSchlaffmanExperiment` for one discount factor `β`:
`ThisType = PersistentShockConsumerTypeX(**ThisDict)` (the dictionary
carries `PrstIncCorr = CorrAct` and `DiscFac = β`); then
`ThisType.PrstIncCorr = CorrPcvd; ThisType.updatepLvlNextFunc();
ThisType.solve(); ThisType.PrstIncCorr = CorrAct;
ThisType.updatepLvlNextFunc(); ThisType.T_sim = 100;
ThisType.initializeSim(); ThisType.simulate()`. -/
def memberProgram (CorrAct CorrPcvd β : ℚ) : List AgentOp :=
  [.construct β CorrAct,
   .setPrstIncCorr CorrPcvd,
   .updatepLvlNextFunc,
   .solve,
   .setPrstIncCorr CorrAct,
   .updatepLvlNextFunc,
   .setTsim 100,
   .initializeSim,
   .simulate]

/-- Abstract state of an agent instance, tracking the persistence belief
field, the persistence value baked into the cached `pLvlNextFunc`
(refreshed only by `updatepLvlNextFunc` or at construction), the
simulation horizon, and which persistence values were in the cached
function when `solve` and `simulate` ran. -/
structure AgentState where
  prstIncCorr : ℚ := 0
  pLvlNextFuncCorr : ℚ := 0
  discFac : ℚ := 0
  tSim : ℕ := 0
  simInit : Bool := false
  solvedWithCorr : Option ℚ := none
  simulatedWithCorr : Option ℚ := none
deriving DecidableEq

/-- Effect of one orchestration operation on the agent state.
Construction runs the update chain, so the cached function initially
reflects the dictionary's persistence value and `T_sim` the baseline
1200; assigning the `PrstIncCorr` attribute alone does NOT refresh the
cached function. -/
def stepOp (s : AgentState) : AgentOp → AgentState
  | .construct β c =>
      { prstIncCorr := c, pLvlNextFuncCorr := c, discFac := β, tSim := 1200,
        simInit := false, solvedWithCorr := none, simulatedWithCorr := none }
  | .setPrstIncCorr c => { s with prstIncCorr := c }
  | .updatepLvlNextFunc => { s with pLvlNextFuncCorr := s.prstIncCorr }
  | .solve => { s with solvedWithCorr := some s.pLvlNextFuncCorr }
  | .setTsim n => { s with tSim := n }
  | .initializeSim => { s with simInit := true }
  | .simulate => { s with simulatedWithCorr := some s.pLvlNextFuncCorr }

/-- Run a sequence of orchestration operations from a state. -/
def runOps (ops : List AgentOp) (s : AgentState) : AgentState :=
  ops.foldl stepOp s

/-- The complete sequence of construct/solve/simulate operations an
invocation of `runRoszypalSchlaffmanExperiment` performs: the member
program for every ensemble discount factor, in ensemble order.  The
function performs no other work before this (no validation of the
configuration). -/
def experimentOps (CorrAct CorrPcvd DiscFac_center DiscFac_spread : ℚ) : List AgentOp :=
  ((DiscFac_list DiscFac_center DiscFac_spread).map (memberProgram CorrAct CorrPcvd)).flatten

/-- Per-agent arrays produced by one ensemble member's simulation, as
read off the instance after `simulate()`: `cLvlNow`, `aLvlNow`,
`MPCnow`, `pLvlNow`. -/
structure SimOut where
  cLvl : List ℚ
  aLvl : List ℚ
  mpc : List ℚ
  pLvl : List ℚ

/-- An abstract external engine: given the discount factor, the
persistence under which the decision problem is solved, and the
persistence under which the simulation runs, produce the per-agent
output arrays.  This stands for the HARK solve/simulate machinery. -/
def Engine := ℚ → ℚ → ℚ → SimOut

/-- The concatenation `np.concatenate([ThisType.X for ThisType in
type_list])` of one field across the ensemble, in ensemble order. -/
def concatField (engine : Engine) (CorrAct CorrPcvd c s : ℚ) (f : SimOut → List ℚ) : List ℚ :=
  ((DiscFac_list c s).map (fun β => f (engine β CorrPcvd CorrAct))).flatten

/-- Embeds `runRoszypalSchlaffmanExperiment(CorrAct, CorrPcvd,
DiscFac_center, DiscFac_spread)` with the external solve/simulate engine
abstracted: each ensemble member is solved under the perceived
persistence and simulated under the actual one (see `memberProgram` for
the operation order), the four per-agent arrays are concatenated across
the ensemble, and the 4-tuple (wealth-to-income quotient, Lorenz curve,
Gini, average MPC by quintile) is returned. -/
def runRoszypalSchlaffmanExperiment (engine : Engine)
    (CorrAct CorrPcvd DiscFac_center DiscFac_spread : ℚ) :
    ℚ × (List ℚ × List ℚ) × ℚ × List ℚ :=
  let aLvl_all := concatField engine CorrAct CorrPcvd DiscFac_center DiscFac_spread SimOut.aLvl
  let MPC_all := concatField engine CorrAct CorrPcvd DiscFac_center DiscFac_spread SimOut.mpc
  let pLvl_all := concatField engine CorrAct CorrPcvd DiscFac_center DiscFac_spread SimOut.pLvl
  (wealthIncomeRat aLvl_all pLvl_all, Lorenz aLvl_all, Gini aLvl_all, Avg_MPC MPC_all pLvl_all)

/-- Transliteration of `PersistentShockConsumerTypeX.getControls` for one
output array: start from an all-NaN array of length `AgentCount` (`none`
embeds NaN), and for each `t` in `range(T_cycle)` overwrite the entries
of agents whose `t_cycle` equals `t` with `g t (mLvl i) (pLvl i)`. -/
def controlLoop (T_cycle : ℕ) (t_cycle : List ℕ) (g : ℕ → ℚ → ℚ → ℚ)
    (mLvl pLvl : List ℚ) : List (Option ℚ) :=
  (List.range T_cycle).foldl
    (fun arr t =>
      (List.range t_cycle.length).map
        (fun i => if t_cycle.getD i 0 = t
                  then some (g t (mLvl.getD i 0) (pLvl.getD i 0))
                  else arr.getD i none))
    (List.replicate t_cycle.length none)

/-- Embeds `PersistentShockConsumerTypeX.getControls`: `cFunc t` is the
period-`t` consumption function `self.solution[t].cFunc` and
`cFuncDerivX t` its partial derivative `derivativeX` in the
cash-on-hand argument; the result is the pair `(cLvlNow, MPCnow)`. -/
def getControls (T_cycle : ℕ) (t_cycle : List ℕ)
    (cFunc cFuncDerivX : ℕ → ℚ → ℚ → ℚ) (mLvl pLvl : List ℚ) :
    List (Option ℚ) × List (Option ℚ) :=
  (controlLoop T_cycle t_cycle cFunc mLvl pLvl,
   controlLoop T_cycle t_cycle cFuncDerivX mLvl pLvl)

/-- A per-agent record of the four simulated outputs
`(cLvlNow, aLvlNow, MPCnow, pLvlNow)`; the concatenated flat arrays are
the four projections of a list of such records. -/
structure AgentRec where
  c : ℚ
  a : ℚ
  mpc : ℚ
  p : ℚ
deriving DecidableEq

/-- The aggregation step of `runRoszypalSchlaffmanExperiment` applied to
the flat per-agent arrays, presented as the projections of one list of
per-agent records (so that jointly permuting the four arrays is
permuting the record list). -/
def aggregates (agents : List AgentRec) : ℚ × (List ℚ × List ℚ) × ℚ × List ℚ :=
  (wealthIncomeRat (agents.map AgentRec.a) (agents.map AgentRec.p),
   Lorenz (agents.map AgentRec.a),
   Gini (agents.map AgentRec.a),
   Avg_MPC (agents.map AgentRec.mpc) (agents.map AgentRec.p))

end IncExp

/-! ## Helper lemmas -/

namespace IncExp

/-- `ceilQ` is the mathematical ceiling. -/
theorem ceilQ_eq (q : ℚ) : ceilQ q = ⌈q⌉ := by
  show -((-q).num / ((-q).den : ℤ)) = ⌈q⌉
  rw [← Rat.floor_def, Int.floor_neg, neg_neg]

theorem mem_of_mem_sorted {l : List ℚ} {x : ℚ} (hx : x ∈ l.insertionSort (· ≤ ·)) : x ∈ l :=
  (List.perm_insertionSort (· ≤ ·) l).mem_iff.mp hx

theorem sum_take_nonneg {l : List ℚ} (h : ∀ x ∈ l, 0 ≤ x) (k : ℕ) : 0 ≤ (l.take k).sum :=
  List.sum_nonneg (fun x hx => h x ((List.take_sublist k l).mem hx))

theorem sum_take_mono {l : List ℚ} (h : ∀ x ∈ l, 0 ≤ x) {j k : ℕ} (hjk : j ≤ k) :
    (l.take j).sum ≤ (l.take k).sum := by
  have hk : k = j + (k - j) := by omega
  rw [hk, List.take_add, List.sum_append]
  have : 0 ≤ ((l.drop j).take (k - j)).sum :=
    List.sum_nonneg (fun x hx => h x ((List.drop_sublist j l).mem ((List.take_sublist _ _).mem hx)))
  linarith

theorem sum_take_le_sum {l : List ℚ} (h : ∀ x ∈ l, 0 ≤ x) (k : ℕ) : (l.take k).sum ≤ l.sum := by
  have h2 : (l.take k).sum + (l.drop k).sum = l.sum := List.sum_take_add_sum_drop l k
  have : 0 ≤ (l.drop k).sum := List.sum_nonneg (fun x hx => h x ((List.drop_sublist k l).mem hx))
  linarith

theorem sorted_nonneg {l : List ℚ} (h : ∀ x ∈ l, 0 ≤ x) :
    ∀ x ∈ l.insertionSort (· ≤ ·), 0 ≤ x :=
  fun x hx => h x (mem_of_mem_sorted hx)

theorem lorenzShare_nonneg {data : List ℚ} (h : ∀ x ∈ data, 0 ≤ x) (p : ℚ) :
    0 ≤ lorenzShare data p :=
  div_nonneg (sum_take_nonneg (sorted_nonneg h) _) (List.sum_nonneg h)

theorem lorenzShare_le_one {data : List ℚ} (h : ∀ x ∈ data, 0 ≤ x) (p : ℚ) :
    lorenzShare data p ≤ 1 := by
  unfold lorenzShare
  rcases eq_or_lt_of_le (List.sum_nonneg h) with hz | hpos
  · rw [← hz, div_zero]; norm_num
  · rw [div_le_one hpos]
    calc ((data.insertionSort (· ≤ ·)).take _).sum
        ≤ (data.insertionSort (· ≤ ·)).sum := sum_take_le_sum (sorted_nonneg h) _
      _ = data.sum := (List.perm_insertionSort (· ≤ ·) data).sum_eq

theorem lorenzShare_mono {data : List ℚ} (h : ∀ x ∈ data, 0 ≤ x) {p q : ℚ} (hpq : p ≤ q) :
    lorenzShare data p ≤ lorenzShare data q := by
  unfold lorenzShare
  rcases eq_or_lt_of_le (List.sum_nonneg h) with hz | hpos
  · rw [← hz, div_zero, div_zero]
  · rw [div_le_div_iff_of_pos_right hpos]
    apply sum_take_mono (sorted_nonneg h)
    apply Int.toNat_le_toNat
    rw [ceilQ_eq, ceilQ_eq]
    exact Int.ceil_mono (mul_le_mul_of_nonneg_right hpq (Nat.cast_nonneg _))

theorem wealth_percentile_pairwise : wealth_percentile.Pairwise (· ≤ ·) := by
  unfold wealth_percentile
  rw [List.pairwise_map]
  refine (List.pairwise_lt_range 201).imp ?_
  intro a b hab
  have h1 : (a : ℚ) ≤ b := by exact_mod_cast le_of_lt hab
  nlinarith

theorem sortQ_eq_of_perm {l₁ l₂ : List ℚ} (h : l₁.Perm l₂) :
    l₁.insertionSort (· ≤ ·) = l₂.insertionSort (· ≤ ·) :=
  List.eq_of_perm_of_sorted
    ((List.perm_insertionSort _ _).trans (h.trans (List.perm_insertionSort _ _).symm))
    (List.sorted_insertionSort _ _) (List.sorted_insertionSort _ _)

theorem sortPair_eq_of_perm {l₁ l₂ : List (ℚ × ℚ)} (h : l₁.Perm l₂) :
    l₁.insertionSort pairLE = l₂.insertionSort pairLE :=
  List.eq_of_perm_of_sorted
    ((List.perm_insertionSort _ _).trans (h.trans (List.perm_insertionSort _ _).symm))
    (List.sorted_insertionSort _ _) (List.sorted_insertionSort _ _)

theorem mean_perm {l₁ l₂ : List ℚ} (h : l₁.Perm l₂) : mean l₁ = mean l₂ := by
  unfold mean
  rw [h.sum_eq, h.length_eq]

theorem lorenzShare_perm {l₁ l₂ : List ℚ} (h : l₁.Perm l₂) (p : ℚ) :
    lorenzShare l₁ p = lorenzShare l₂ p := by
  unfold lorenzShare
  rw [sortQ_eq_of_perm h, h.length_eq, h.sum_eq]

theorem Lorenz_init_perm {l₁ l₂ : List ℚ} (h : l₁.Perm l₂) :
    Lorenz_init l₁ = Lorenz_init l₂ := by
  unfold Lorenz_init getLorenzShares
  rw [List.map_congr_left (fun p _ => lorenzShare_perm h p)]

theorem controlStep_getD (t_cycle : List ℕ) (g : ℕ → ℚ → ℚ → ℚ) (mLvl pLvl : List ℚ)
    (arr : List (Option ℚ)) (t i : ℕ) (hi : i < t_cycle.length) :
    ((List.range t_cycle.length).map
        (fun j => if t_cycle.getD j 0 = t
                  then some (g t (mLvl.getD j 0) (pLvl.getD j 0))
                  else arr.getD j none)).getD i none =
      if t_cycle.getD i 0 = t then some (g t (mLvl.getD i 0) (pLvl.getD i 0))
      else arr.getD i none := by
  rw [List.getD_eq_getElem?_getD, List.getElem?_map, List.getElem?_range hi]
  rfl

theorem controlLoop_getD (T_cycle : ℕ) (t_cycle : List ℕ) (g : ℕ → ℚ → ℚ → ℚ)
    (mLvl pLvl : List ℚ) (i : ℕ) (hi : i < t_cycle.length) :
    (controlLoop T_cycle t_cycle g mLvl pLvl).getD i none =
      if t_cycle.getD i 0 < T_cycle
      then some (g (t_cycle.getD i 0) (mLvl.getD i 0) (pLvl.getD i 0))
      else none := by
  induction T_cycle with
  | zero =>
      unfold controlLoop
      rw [List.range_zero, List.foldl_nil, List.getD_eq_getElem?_getD,
        List.getElem?_replicate]
      simp [hi]
  | succ T ih =>
      unfold controlLoop at ih ⊢
      rw [List.range_succ, List.foldl_append, List.foldl_cons, List.foldl_nil,
        controlStep_getD t_cycle g mLvl pLvl _ T i hi, ih]
      by_cases h1 : t_cycle.getD i 0 = T
      · rw [if_pos h1, if_pos (by omega), h1]
      · rw [if_neg h1]
        by_cases h2 : t_cycle.getD i 0 < T
        · rw [if_pos h2, if_pos (by omega)]
        · rw [if_neg h2, if_neg (by omega)]

theorem controlLoop_length (T_cycle : ℕ) (t_cycle : List ℕ) (g : ℕ → ℚ → ℚ → ℚ)
    (mLvl pLvl : List ℚ) :
    (controlLoop T_cycle t_cycle g mLvl pLvl).length = t_cycle.length := by
  induction T_cycle with
  | zero =>
      unfold controlLoop
      rw [List.range_zero, List.foldl_nil, List.length_replicate]
  | succ T ih =>
      unfold controlLoop at ih ⊢
      rw [List.range_succ, List.foldl_append, List.foldl_cons, List.foldl_nil,
        List.length_map, List.length_range]

theorem sum_pos_length_pos {l : List ℚ} (h : 0 < l.sum) : 0 < (l.length : ℚ) := by
  rcases l with _ | ⟨x, xs⟩
  · norm_num at h
  · simp only [List.length_cons]
    push_cast
    linarith [Nat.cast_nonneg (α := ℚ) xs.length]

end IncExp

/-! ## Claim theorems -/

namespace IncExp

set_option maxRecDepth 100000 in
/-- Claim C1: the claim states that the Gini coefficient returned by
`runRoszypalSchlaffmanExperiment` equals 1 minus 2 times the arithmetic
mean of the full Lorenz-share sequence at the 201 interior percentile
points.  The code instead computes `1 - 2*np.mean(Lorenz_init[1])`, where
`Lorenz_init[1]` is the single share at the first interior percentile
0.001.  On the concatenated asset array `[0, 1]` the code yields Gini = 1
while the claimed formula yields 1/201, so the two disagree: the code
contradicts its own docstring (which promises "Gini coefficient for
assets"), a formula defect the specification itself flags. -/
theorem gini_formula_bug_two_agents :
    Gini [0, 1] = 1 ∧
    GiniSpecMean [0, 1] = 1/201 ∧
    Gini [0, 1] ≠ GiniSpecMean [0, 1] := by
  with_unfolding_all decide

/-- Claim C2: for every ensemble discount-factor value the orchestrator
performs, in order: construct (with that discount factor and the actual
persistence in the dictionary), set persistence to the perceived value,
refresh the cached expected-next-period-permanent-income function, solve,
set persistence back to the actual value, refresh the cache again,
shorten the horizon to 100, initialize simulation and simulate; hence the
decision problem is solved with the perceived persistence in the cached
function and the simulation runs with the actual persistence. -/
theorem solve_under_perceived_simulate_under_actual
    (CorrAct CorrPcvd c s β : ℚ) (s0 : AgentState) (hβ : β ∈ DiscFac_list c s) :
    memberProgram CorrAct CorrPcvd β =
      [.construct β CorrAct, .setPrstIncCorr CorrPcvd, .updatepLvlNextFunc, .solve,
       .setPrstIncCorr CorrAct, .updatepLvlNextFunc, .setTsim 100, .initializeSim,
       .simulate] ∧
    (runOps (memberProgram CorrAct CorrPcvd β) s0).solvedWithCorr = some CorrPcvd ∧
    (runOps (memberProgram CorrAct CorrPcvd β) s0).simulatedWithCorr = some CorrAct ∧
    (runOps (memberProgram CorrAct CorrPcvd β) s0).tSim = 100 ∧
    (runOps (memberProgram CorrAct CorrPcvd β) s0).simInit = true ∧
    (runOps (memberProgram CorrAct CorrPcvd β) s0).prstIncCorr = CorrAct ∧
    (runOps (memberProgram CorrAct CorrPcvd β) s0).discFac = β :=
  ⟨rfl, rfl, rfl, rfl, rfl, rfl, rfl⟩

/-- Witness for C2 at concrete inputs (center 1/2, spread 0, so 1/2 is an
ensemble value). -/
theorem solve_under_perceived_simulate_under_actual_witness :
    ((1:ℚ)/2 ∈ DiscFac_list (1/2) 0) ∧
    ((runOps (memberProgram (97/100) (9831/10000) (1/2)) {}).solvedWithCorr
        = some (9831/10000) ∧
     (runOps (memberProgram (97/100) (9831/10000) (1/2)) {}).simulatedWithCorr
        = some (97/100) ∧
     (runOps (memberProgram (97/100) (9831/10000) (1/2)) {}).tSim = 100) := by
  have hmem : (1:ℚ)/2 ∈ DiscFac_list (1/2) 0 := by with_unfolding_all decide
  have h := solve_under_perceived_simulate_under_actual (97/100) (9831/10000)
    (1/2) 0 (1/2) {} hmem
  exact ⟨hmem, h.2.1, h.2.2.1, h.2.2.2.1⟩

set_option maxRecDepth 100000 in
/-- Claim C3: the claim states the returned Gini coefficient lies in
[0,1] for every non-negative asset distribution with positive total over
a non-empty population.  Because the code computes the Gini from the
single Lorenz share at percentile 0.001, a one-agent population with
assets `[1]` (non-negative, positive total) has first-percentile share 1
and the code returns Gini = −1, outside [0,1]; the claim is the intended
invariant and the code's degenerate formula violates it. -/
theorem gini_negative_single_agent :
    (∀ x ∈ [(1:ℚ)], 0 ≤ x) ∧ (0:ℚ) < [(1:ℚ)].sum ∧
    Gini [1] = -1 ∧ ¬(0 ≤ Gini [1] ∧ Gini [1] ≤ 1) := by
  with_unfolding_all decide

/-- Claim C4 (counterexample): the aggregation step does not report any
domain error.  With assets `[1]` and permanent income `[0]` (mean
permanent income zero) it silently produces +inf, and on the empty
population it silently produces NaN — both non-finite values, not
explicit errors. -/
theorem wealth_quotient_silent_nonfinite :
    wealthIncomeRatNp [1] [0] = NpVal.posInf ∧
    wealthIncomeRatNp [] [] = NpVal.nan ∧
    NpVal.posInf.isFin = false ∧ NpVal.nan.isFin = false := by
  with_unfolding_all decide

/-- Claim C4 (amended): the aggregation step performs no guard; it
computes mean(assets)/mean(permanent income) unconditionally with
numpy float semantics, and whenever the population is empty or mean
permanent income is zero the result is a non-finite value (NaN or ±inf)
produced silently rather than an explicit domain error. -/
theorem wealth_quotient_no_guard (aLvl pLvl : List ℚ)
    (h : pLvl = [] ∨ mean pLvl = 0) :
    (wealthIncomeRatNp aLvl pLvl).isFin = false := by
  by_cases hp : pLvl = []
  · subst hp
    have h2 : npMean ([] : List ℚ) = NpVal.nan := rfl
    cases haL : npMean aLvl <;>
      simp only [wealthIncomeRatNp, haL, h2, npDiv, NpVal.isFin]
  · rcases h with h | h
    · exact absurd h hp
    · have hm : npMean pLvl = .fin 0 := by simp [npMean, hp, h]
      cases haL : npMean aLvl <;>
        simp only [wealthIncomeRatNp, hm, haL, npDiv, NpVal.isFin] <;>
        split_ifs <;> rfl

/-- Witness for the amended C4 at assets `[1]`, permanent income `[0]`. -/
theorem wealth_quotient_no_guard_witness :
    (([(0:ℚ)] : List ℚ) = [] ∨ mean [(0:ℚ)] = 0) ∧
    (wealthIncomeRatNp [1] [0]).isFin = false := by
  have h0 : mean [(0:ℚ)] = 0 := by with_unfolding_all decide
  exact ⟨Or.inr h0, wealth_quotient_no_guard [1] [0] (Or.inr h0)⟩

/-- Claim C5 (counterexample): with center 1/2 and spread 7/10 the
discount-factor interval (−1/5, 6/5) leaves (0,1), yet the orchestration
performs the full workload — 7 solve operations and 7 simulate
operations — instead of rejecting the configuration before any solve or
simulate work. -/
theorem no_validation_counterexample :
    ¬ ((0:ℚ) < 1/2 - 7/10) ∧
    (experimentOps (97/100) (9831/10000) (1/2) (7/10)).count AgentOp.solve = 7 ∧
    (experimentOps (97/100) (9831/10000) (1/2) (7/10)).count AgentOp.simulate = 7 :=
  ⟨by norm_num, rfl, rfl⟩

/-- Claim C5 (amended): `runRoszypalSchlaffmanExperiment` performs no
configuration validation at all: for every input quadruple, including
malformed ones, it runs the complete construct/solve/simulate sequence
for all 7 ensemble members (63 agent operations, 7 of them solves and 7
of them simulates). -/
theorem no_validation_full_workload (a p c s : ℚ) :
    (experimentOps a p c s).count AgentOp.solve = 7 ∧
    (experimentOps a p c s).count AgentOp.simulate = 7 ∧
    (experimentOps a p c s).length = 63 :=
  ⟨rfl, rfl, rfl⟩

/-- Claim C6: for every run (any asset array with non-negative entries,
as the borrowing constraint guarantees), the returned Lorenz curve starts
at exactly (0,0), ends at exactly (1,1), and the cumulative-share
sequence is non-decreasing. -/
theorem lorenz_boundary_monotone (aLvl : List ℚ) (h : ∀ x ∈ aLvl, 0 ≤ x) :
    (Lorenz aLvl).1.head? = some 0 ∧
    (Lorenz aLvl).2.head? = some 0 ∧
    (Lorenz aLvl).1.getLast? = some 1 ∧
    (Lorenz aLvl).2.getLast? = some 1 ∧
    (Lorenz aLvl).2.Pairwise (· ≤ ·) := by
  refine ⟨rfl, rfl, ?_, ?_, ?_⟩
  · show (([0] : List ℚ) ++ wealth_percentile ++ [1]).getLast? = some (1:ℚ)
    rw [List.getLast?_concat]
  · show (([0] : List ℚ) ++ getLorenzShares aLvl wealth_percentile ++ [1]).getLast?
        = some (1:ℚ)
    rw [List.getLast?_concat]
  · show (([0] : List ℚ) ++ getLorenzShares aLvl wealth_percentile ++ [1]).Pairwise (· ≤ ·)
    rw [List.pairwise_append]
    refine ⟨?_, List.pairwise_singleton _ _, ?_⟩
    · rw [List.pairwise_append]
      refine ⟨List.pairwise_singleton _ _, ?_, ?_⟩
      · unfold getLorenzShares
        rw [List.pairwise_map]
        exact wealth_percentile_pairwise.imp (fun hab => lorenzShare_mono h hab)
      · intro x hx b hb
        rw [List.mem_singleton] at hx
        subst hx
        rcases List.mem_map.mp hb with ⟨p, hp, rfl⟩
        exact lorenzShare_nonneg h p
    · intro x hx b hb
      rw [List.mem_singleton] at hb
      subst hb
      rcases List.mem_append.mp hx with hx | hx
      · rw [List.mem_singleton] at hx; subst hx; norm_num
      · rcases List.mem_map.mp hx with ⟨p, hp, rfl⟩
        exact lorenzShare_le_one h p

/-- Witness for C6 at the one-agent asset array `[1]`. -/
theorem lorenz_boundary_monotone_witness :
    (∀ x ∈ [(1:ℚ)], 0 ≤ x) ∧
    ((Lorenz [1]).1.head? = some 0 ∧
     (Lorenz [1]).2.head? = some 0 ∧
     (Lorenz [1]).1.getLast? = some 1 ∧
     (Lorenz [1]).2.getLast? = some 1 ∧
     (Lorenz [1]).2.Pairwise (· ≤ ·)) := by
  have h1 : ∀ x ∈ [(1:ℚ)], 0 ≤ x := by
    intro x hx
    rw [List.mem_singleton] at hx
    subst hx
    norm_num
  exact ⟨h1, lorenz_boundary_monotone [1] h1⟩

end IncExp

namespace IncExp

/-- Claim C7: with CorrAct = 0.97, CorrPcvd = 0.9831, center = 0.9867 and
spread = 0.0067, the experiment returns a 4-tuple whose wealth-to-income
quotient is positive (hence a finite positive value) whenever the
externally simulated asset and permanent-income arrays have positive
totals, whose Lorenz pair consists of two arrays of length 203 (201
interior percentile points plus the two boundary points — numpy shape
(2, 203)), and whose average-MPC sequence has exactly 5 entries. -/
theorem experiment_shape_and_positive (engine : Engine)
    (ha : 0 < (concatField engine (97/100) (9831/10000) (9867/10000) (67/10000)
        SimOut.aLvl).sum)
    (hp : 0 < (concatField engine (97/100) (9831/10000) (9867/10000) (67/10000)
        SimOut.pLvl).sum) :
    0 < (runRoszypalSchlaffmanExperiment engine (97/100) (9831/10000) (9867/10000)
        (67/10000)).1 ∧
    (runRoszypalSchlaffmanExperiment engine (97/100) (9831/10000) (9867/10000)
        (67/10000)).2.1.1.length = 203 ∧
    (runRoszypalSchlaffmanExperiment engine (97/100) (9831/10000) (9867/10000)
        (67/10000)).2.1.2.length = 203 ∧
    (runRoszypalSchlaffmanExperiment engine (97/100) (9831/10000) (9867/10000)
        (67/10000)).2.2.2.length = 5 := by
  refine ⟨?_, ?_, ?_, ?_⟩
  · show 0 < wealthIncomeRat _ _
    unfold wealthIncomeRat mean
    exact div_pos (div_pos ha (sum_pos_length_pos ha)) (div_pos hp (sum_pos_length_pos hp))
  · show (wealth_percentile_bounded).length = 203
    simp [wealth_percentile_bounded, wealth_percentile]
  · show (Lorenz_init _).length = 203
    simp [Lorenz_init, getLorenzShares, wealth_percentile]
  · show (Avg_MPC _ _).length = 5
    simp [Avg_MPC, calcSubpopAvg, quintileCutoffs]

/-- Witness for C7 with a small constant engine (each member produces one
agent with consumption, assets, MPC and permanent income all 1). -/
theorem experiment_shape_and_positive_witness :
    (0 < (concatField (fun _ _ _ => ⟨[1], [1], [1], [1]⟩) (97/100) (9831/10000)
        (9867/10000) (67/10000) SimOut.aLvl).sum) ∧
    (0 < (concatField (fun _ _ _ => ⟨[1], [1], [1], [1]⟩) (97/100) (9831/10000)
        (9867/10000) (67/10000) SimOut.pLvl).sum) ∧
    (0 < (runRoszypalSchlaffmanExperiment (fun _ _ _ => ⟨[1], [1], [1], [1]⟩)
        (97/100) (9831/10000) (9867/10000) (67/10000)).1 ∧
     (runRoszypalSchlaffmanExperiment (fun _ _ _ => ⟨[1], [1], [1], [1]⟩)
        (97/100) (9831/10000) (9867/10000) (67/10000)).2.1.1.length = 203 ∧
     (runRoszypalSchlaffmanExperiment (fun _ _ _ => ⟨[1], [1], [1], [1]⟩)
        (97/100) (9831/10000) (9867/10000) (67/10000)).2.1.2.length = 203 ∧
     (runRoszypalSchlaffmanExperiment (fun _ _ _ => ⟨[1], [1], [1], [1]⟩)
        (97/100) (9831/10000) (9867/10000) (67/10000)).2.2.2.length = 5) := by
  have ha : 0 < (concatField (fun _ _ _ => ⟨[1], [1], [1], [1]⟩) (97/100) (9831/10000)
      (9867/10000) (67/10000) SimOut.aLvl).sum := by
    with_unfolding_all decide
  have hp : 0 < (concatField (fun _ _ _ => ⟨[1], [1], [1], [1]⟩) (97/100) (9831/10000)
      (9867/10000) (67/10000) SimOut.pLvl).sum := by
    with_unfolding_all decide
  exact ⟨ha, hp, experiment_shape_and_positive _ ha hp⟩

/-- Claim C8: the discount-factor ensemble for center c and (non-negative)
spread s is a deterministic approximation with exactly 7 nodes, every
node lying within [c−s, c+s], and the node multiset symmetric about c
(reflecting each node through c and reversing reproduces the list). -/
theorem ensemble_seven_symmetric_in_range (c s : ℚ) (hs : 0 ≤ s) :
    (DiscFac_list c s).length = 7 ∧
    (∀ x ∈ DiscFac_list c s, c - s ≤ x ∧ x ≤ c + s) ∧
    ((DiscFac_list c s).map (fun x => 2 * c - x)).reverse = DiscFac_list c s := by
  refine ⟨rfl, ?_, ?_⟩
  · intro x hx
    simp [DiscFac_list, uniformApproxX, List.range_succ] at hx
    rcases hx with rfl | rfl | rfl | rfl | rfl | rfl | rfl <;>
      constructor <;> linarith
  · simp [DiscFac_list, uniformApproxX, List.range_succ]
    norm_num
    refine ⟨by ring, by ring, by ring, by ring, by ring, by ring, by ring⟩

/-- Witness for C8 at the notebook's center 0.9867 and spread 0.0067. -/
theorem ensemble_seven_symmetric_in_range_witness :
    (0:ℚ) ≤ 67/10000 ∧
    ((DiscFac_list (9867/10000) (67/10000)).length = 7 ∧
     (∀ x ∈ DiscFac_list (9867/10000) (67/10000),
        9867/10000 - 67/10000 ≤ x ∧ x ≤ 9867/10000 + 67/10000) ∧
     ((DiscFac_list (9867/10000) (67/10000)).map
        (fun x => 2 * (9867/10000) - x)).reverse = DiscFac_list (9867/10000) (67/10000)) :=
  ⟨by norm_num, ensemble_seven_symmetric_in_range (9867/10000) (67/10000) (by norm_num)⟩

/-- Claim C9: jointly permuting the per-agent records (i.e. applying one
permutation to the four concatenated flat arrays) leaves all four
aggregate outputs — wealth-to-income quotient, Lorenz curve, Gini, and
average MPC by income quintile — unchanged; the ensemble concatenation
order never affects an aggregate statistic. -/
theorem aggregates_perm_invariant (l₁ l₂ : List AgentRec) (h : l₁.Perm l₂) :
    aggregates l₁ = aggregates l₂ := by
  have ha : (l₁.map AgentRec.a).Perm (l₂.map AgentRec.a) := h.map _
  have hp : (l₁.map AgentRec.p).Perm (l₂.map AgentRec.p) := h.map _
  have hpair : ((l₁.map AgentRec.p).zip (l₁.map AgentRec.mpc)).Perm
      ((l₂.map AgentRec.p).zip (l₂.map AgentRec.mpc)) := by
    rw [List.zip_map', List.zip_map']
    exact h.map _
  unfold aggregates
  refine congrArg₂ Prod.mk ?_ (congrArg₂ Prod.mk ?_ (congrArg₂ Prod.mk ?_ ?_))
  · unfold wealthIncomeRat
    rw [mean_perm ha, mean_perm hp]
  · unfold Lorenz
    rw [Lorenz_init_perm ha]
  · unfold Gini
    rw [Lorenz_init_perm ha]
  · unfold Avg_MPC calcSubpopAvg
    rw [sortPair_eq_of_perm hpair, hp.length_eq]

/-- Witness for C9: swapping two concrete agent records leaves the
aggregates unchanged. -/
theorem aggregates_perm_invariant_witness :
    (([⟨1, 2, 3, 4⟩, ⟨5, 6, 7, 8⟩] : List AgentRec).Perm
        [⟨5, 6, 7, 8⟩, ⟨1, 2, 3, 4⟩]) ∧
    aggregates [⟨1, 2, 3, 4⟩, ⟨5, 6, 7, 8⟩] = aggregates [⟨5, 6, 7, 8⟩, ⟨1, 2, 3, 4⟩] := by
  have hswap : (([⟨1, 2, 3, 4⟩, ⟨5, 6, 7, 8⟩] : List AgentRec)).Perm
      [⟨5, 6, 7, 8⟩, ⟨1, 2, 3, 4⟩] := List.Perm.swap _ _ _
  exact ⟨hswap, aggregates_perm_invariant _ _ hswap⟩

/-- Claim C10: `getControls` produces two arrays of length equal to the
agent count (one `t_cycle` entry per agent); every agent whose current
period `t_cycle[i]` lies in the cycle receives the period-`t_cycle[i]`
consumption function evaluated at its (cash-on-hand, permanent-income)
pair and that function's partial derivative in cash-on-hand as its MPC,
while every agent whose period is never processed by the loop keeps the
undefined (NaN, here `none`) value in both arrays. -/
theorem getControls_values (T_cycle : ℕ) (t_cycle : List ℕ)
    (cFunc cFuncDerivX : ℕ → ℚ → ℚ → ℚ) (mLvl pLvl : List ℚ) :
    (getControls T_cycle t_cycle cFunc cFuncDerivX mLvl pLvl).1.length = t_cycle.length ∧
    (getControls T_cycle t_cycle cFunc cFuncDerivX mLvl pLvl).2.length = t_cycle.length ∧
    ∀ i, i < t_cycle.length →
      ((getControls T_cycle t_cycle cFunc cFuncDerivX mLvl pLvl).1.getD i none =
        if t_cycle.getD i 0 < T_cycle
        then some (cFunc (t_cycle.getD i 0) (mLvl.getD i 0) (pLvl.getD i 0))
        else none) ∧
      ((getControls T_cycle t_cycle cFunc cFuncDerivX mLvl pLvl).2.getD i none =
        if t_cycle.getD i 0 < T_cycle
        then some (cFuncDerivX (t_cycle.getD i 0) (mLvl.getD i 0) (pLvl.getD i 0))
        else none) :=
  ⟨controlLoop_length _ _ _ _ _, controlLoop_length _ _ _ _ _,
   fun i hi => ⟨controlLoop_getD _ _ _ _ _ i hi, controlLoop_getD _ _ _ _ _ i hi⟩⟩

/-- Witness for C10: one cycle period, two agents — the agent at period 0
gets the period-0 consumption function value m + p and derivative 1, the
agent stuck at period 3 (outside the cycle) keeps `none`. -/
theorem getControls_values_witness :
    ((getControls 1 [0, 3] (fun _ m p => m + p) (fun _ _ _ => 1) [2, 5] [3, 7]).1.getD 0 none
      = some 5) ∧
    ((getControls 1 [0, 3] (fun _ m p => m + p) (fun _ _ _ => 1) [2, 5] [3, 7]).2.getD 0 none
      = some 1) ∧
    ((getControls 1 [0, 3] (fun _ m p => m + p) (fun _ _ _ => 1) [2, 5] [3, 7]).1.getD 1 none
      = none) ∧
    ((getControls 1 [0, 3] (fun _ m p => m + p) (fun _ _ _ => 1) [2, 5] [3, 7]).1.length = 2) := by
  have h := getControls_values 1 [0, 3] (fun _ m p => m + p) (fun _ _ _ => 1) [2, 5] [3, 7]
  have h0 := h.2.2 0 (by norm_num)
  have h1 := h.2.2 1 (by norm_num)
  refine ⟨?_, ?_, ?_, ?_⟩
  · rw [h0.1]
    norm_num
  · rw [h0.2]
    norm_num
  · rw [h1.1]
    norm_num
  · exact h.1

end IncExp
